import Mathlib

/-!
Verification development for the betting-app repository (src/modal_app.py).

The three core functions — `process_race_data`, `generate_betting_advice`
and `analyze_historical_performance` — operate on Python dictionaries.
We embed those records as structures whose fields are `Option`-valued
(a Python dict may lack any key); `d[k]` access is modelled by `getField`,
which raises a `KeyError` (as `Except.error`) when the key is absent,
while `d.get(k, default)` is modelled by `Option.getD`.

Numeric values (odds, weight, confidence) are modelled as rationals,
finishing positions as integers.  `np.mean xs` is `xs.sum / xs.length`.
The `np.random.uniform(0.1, 0.9)` confidence draws of
`generate_betting_advice` are modelled by an explicit stream
`draws : ℕ → ℚ` consumed one value per loop iteration.  The `reasoning`
string of a recommendation is a fixed template depending only on the
confidence value and is not modelled.
-/

namespace BettingApp

/-- A horse entry (an element of `race_data['horses']`); every key may be
absent, as in a Python dict. -/
structure Horse where
  id : Option String
  name : Option String
  odds : Option ℚ
  weight : Option ℚ
deriving Repr, DecidableEq

/-- A result entry (an element of a race's `results` list). -/
structure ResultEntry where
  id : Option String
  position : Option ℤ
deriving Repr, DecidableEq

/-- A race record: a Python dict with optional `surface`, `horses` and
`results` keys. -/
structure Race where
  surface : Option String
  horses : Option (List Horse)
  results : Option (List ResultEntry)
deriving Repr, DecidableEq

/-- The failures the embedded code can raise: a Python `KeyError` on a
missing dict key (the spec calls this `MalformedEntry`). -/
inductive PyError where
  | keyError (key : String)
deriving Repr, DecidableEq

/-- Python subscript access `d[key]`: the value when present, otherwise a
`KeyError` naming the key. -/
def getField {α : Type} (o : Option α) (key : String) : Except PyError α :=
  match o with
  | some a => Except.ok a
  | none => Except.error (PyError.keyError key)

/-- `np.mean` on a list of rationals: sum divided by length. -/
def pyMean (xs : List ℚ) : ℚ := xs.sum / xs.length

/-! ## `process_race_data` (src/modal_app.py lines 20–45) -/

/-- The `analysis` dict built by `process_race_data` for a non-empty horse
list; the output key for the surface is literally `race_surface`. -/
structure Analysis where
  total_horses : ℕ
  average_odds : ℚ
  average_weight : ℚ
  race_surface : String
deriving Repr, DecidableEq

/-- The return value of `process_race_data`: `analysis` is `none` for the
empty dict `{}`, and `processed_data` echoes the input race. -/
structure ProcessOutput where
  analysis : Option Analysis
  processed_data : Race
deriving Repr, DecidableEq

/-- The list comprehension `[h[key] for h in horses]`: collects the field
from every horse left to right, raising `KeyError` at the first absence. -/
def listFields {α : Type} (key : String) (f : Horse → Option α) :
    List Horse → Except PyError (List α)
  | [] => Except.ok []
  | h :: t => do
    let v ← getField (f h) key
    let vs ← listFields key f t
    Except.ok (v :: vs)

/-- `process_race_data(race_data)`: on an empty (or absent) horse list
returns `{'analysis': {}, 'processed_data': race_data}`; otherwise computes
average odds and weight by `np.mean`, the horse count, and the surface
(defaulting to `"Unknown"`). -/
def process_race_data (race_data : Race) : Except PyError ProcessOutput :=
  let horses := race_data.horses.getD []
  if horses.isEmpty then
    Except.ok { analysis := none, processed_data := race_data }
  else do
    let odds ← listFields "odds" Horse.odds horses
    let weights ← listFields "weight" Horse.weight horses
    Except.ok
      { analysis := some
          { total_horses := horses.length
            average_odds := pyMean odds
            average_weight := pyMean weights
            race_surface := race_data.surface.getD "Unknown" }
        processed_data := race_data }

/-! ## `generate_betting_advice` (src/modal_app.py lines 48–78) -/

/-- The three recommendation labels; `render` gives the literal strings the
code stores under `recommendedBet` (note the code writes `'No Bet'`). -/
inductive Bet where
  | Win
  | Place
  | NoBet
deriving Repr, DecidableEq

/-- The literal string the code stores for each recommendation label. -/
def Bet.render : Bet → String
  | Bet.Win => "Win"
  | Bet.Place => "Place"
  | Bet.NoBet => "No Bet"

/-- The threshold cascade of `generate_betting_advice`:
`confidence > 0.7` gives Win, `elif confidence > 0.4` gives Place,
else No Bet. -/
def classify (confidence : ℚ) : Bet :=
  if confidence > 0.7 then Bet.Win
  else if confidence > 0.4 then Bet.Place
  else Bet.NoBet

/-- The expected-odds adjustment on line 75:
`horse['odds'] * (1 + (1 - confidence) * 0.5)`. -/
def expected_odds (odds confidence : ℚ) : ℚ :=
  odds * (1 + (1 - confidence) * 0.5)

/-- One advice record, as appended by the loop body (the `reasoning`
string, a fixed template over the confidence, is not modelled). -/
structure Recommendation where
  horseId : String
  horseName : String
  confidence : ℚ
  recommendedBet : Bet
  expectedOdds : ℚ
deriving Repr, DecidableEq

/-- One iteration of the advice loop at a drawn confidence: the dict
literal accesses `horse['id']`, `horse['name']` and `horse['odds']` (in
that evaluation order), raising `KeyError` on whichever is absent. -/
def adviseHorse (horse : Horse) (confidence : ℚ) :
    Except PyError Recommendation := do
  let hid ← getField horse.id "id"
  let hname ← getField horse.name "name"
  let hodds ← getField horse.odds "odds"
  Except.ok
    { horseId := hid
      horseName := hname
      confidence := confidence
      recommendedBet := classify confidence
      expectedOdds := expected_odds hodds confidence }

/-- The `for horse in horses` loop: iteration `i` draws `draws i` and
appends one record; the first `KeyError` aborts the whole call. -/
def adviceLoop (horses : List Horse) (draws : ℕ → ℚ) (i : ℕ) :
    Except PyError (List Recommendation) :=
  match horses with
  | [] => Except.ok []
  | h :: t => do
    let r ← adviseHorse h (draws i)
    let rest ← adviceLoop t draws (i + 1)
    Except.ok (r :: rest)

/-- `generate_betting_advice(race_data, historical_data=None)`: iterates
over `race_data.get('horses', [])`; `historical_data` is accepted but never
read by the body. -/
def generate_betting_advice (race_data : Race)
    (historical_data : Option (List Race)) (draws : ℕ → ℚ) :
    Except PyError (List Recommendation) :=
  adviceLoop (race_data.horses.getD []) draws 0

/-! ## `analyze_historical_performance` (src/modal_app.py lines 140–164) -/

/-- `any(h['id'] == horse_id for h in r.get('results', []))`: short-circuits
at the first matching entry, raising `KeyError` if an entry reached lacks
`id`. -/
def anyResultMatches (horse_id : String) :
    List ResultEntry → Except PyError Bool
  | [] => Except.ok false
  | e :: rest => do
    let eid ← getField e.id "id"
    if eid = horse_id then Except.ok true
    else anyResultMatches horse_id rest

/-- The comprehension `[r for r in races if any(...)]`, filtering races by
`anyResultMatches` left to right. -/
def filterHorseRaces (horse_id : String) :
    List Race → Except PyError (List Race)
  | [] => Except.ok []
  | r :: rest => do
    let m ← anyResultMatches horse_id (r.results.getD [])
    let others ← filterHorseRaces horse_id rest
    if m then Except.ok (r :: others) else Except.ok others

/-- The inner collection loop over one race's `results`: every entry is
visited (no short-circuit), `horse['id']` is accessed on each, and a
matching entry contributes `horse.get('position', 0)`. -/
def racePositions (horse_id : String) :
    List ResultEntry → Except PyError (List ℤ)
  | [] => Except.ok []
  | e :: rest => do
    let eid ← getField e.id "id"
    let tail ← racePositions horse_id rest
    if eid = horse_id then Except.ok (e.position.getD 0 :: tail)
    else Except.ok tail

/-- The outer collection loop of `analyze_historical_performance`,
concatenating the positions found in each selected race. -/
def collectPositions (horse_id : String) :
    List Race → Except PyError (List ℤ)
  | [] => Except.ok []
  | r :: rest => do
    let ps ← racePositions horse_id (r.results.getD [])
    let qs ← collectPositions horse_id rest
    Except.ok (ps ++ qs)

/-- The two shapes `analyze_historical_performance` can return: the
degenerate `{'horse_id': ..., 'performance': 'No historical data'}` dict,
or the full profile dict (which alone carries `total_races`). -/
inductive AnalyzeResult where
  | noData (horse_id : String) (performance : String)
  | profile (horse_id : String) (total_races : ℕ) (average_position : ℚ)
      (win_rate : ℚ) (recent_form : List ℤ)
deriving Repr, DecidableEq

/-- `np.mean` on the integer position list. -/
def intMean (xs : List ℤ) : ℚ := ((xs.map (Int.cast : ℤ → ℚ)).sum) / xs.length

/-- `analyze_historical_performance(horse_id, races)`: selects the races
whose results mention `horse_id`, returns the degenerate record when none
do, and otherwise the profile with mean position, win rate and
`positions[-5:]` as recent form (the code guards both means by
`if positions else 0`). -/
def analyze_historical_performance (horse_id : String) (races : List Race) :
    Except PyError AnalyzeResult := do
  let horse_races ← filterHorseRaces horse_id races
  if horse_races.isEmpty then
    Except.ok (AnalyzeResult.noData horse_id "No historical data")
  else do
    let positions ← collectPositions horse_id horse_races
    let avg_position := if positions.isEmpty then 0 else intMean positions
    let win_rate : ℚ :=
      if positions.isEmpty then 0
      else ((positions.filter (fun p => p = 1)).length : ℚ) / positions.length
    Except.ok (AnalyzeResult.profile horse_id horse_races.length avg_position
      win_rate
      (if positions.length ≥ 5 then positions.drop (positions.length - 5)
       else positions))

/-! ## Reference (spec-side) expressions for `analyze_historical_performance`

These follow the spec's description of the aggregation — the races whose
results mention the horse, and the positions collected from them — and are
compared with the embedded code in the theorems below. -/

/-- The races whose `results` contain an entry whose `id` equals
`horse_id`. -/
def specMatchingRaces (horse_id : String) (races : List Race) : List Race :=
  races.filter (fun r => (r.results.getD []).any (fun e => e.id = some horse_id))

/-- Every `position` value (a missing one counting as 0) of the matching
entries across the matching races, in corpus iteration order. -/
def specPositions (horse_id : String) (races : List Race) : List ℤ :=
  ((specMatchingRaces horse_id races).map (fun r =>
    ((r.results.getD []).filter (fun e => e.id = some horse_id)).map
      (fun e => e.position.getD 0))).flatten

/-! ## Concrete example data (used to instantiate the theorems) -/

/-- The worked example race of the spec: Turf, Alpha at odds 3 weight 120,
Beta at odds 5 weight 115. -/
def exRace : Race :=
  { surface := some "Turf"
    horses := some
      [ { id := some "h1", name := some "Alpha", odds := some 3, weight := some 120 }
      , { id := some "h2", name := some "Beta", odds := some 5, weight := some 115 } ]
    results := none }

/-- A race with an empty horse list. -/
def emptyRace : Race :=
  { surface := some "Dirt", horses := some [], results := none }

/-- A horse record lacking the `odds` key (but carrying `weight`). -/
def badHorse : Horse :=
  { id := some "h3", name := some "Gamma", odds := none, weight := some 110 }

/-- A race whose only horse lacks `odds`. -/
def badRace : Race :=
  { surface := none, horses := some [badHorse], results := none }

/-- A deterministic confidence stream hitting both boundary values:
0.7 for the first horse, 0.4 afterwards. -/
def exDraws : ℕ → ℚ := fun i => if i = 0 then 0.7 else 0.4

/-- The record produced for Alpha at the boundary confidence 0.7. -/
def exRecPlace : Recommendation :=
  { horseId := "h1", horseName := "Alpha", confidence := 0.7
    recommendedBet := Bet.Place, expectedOdds := 69/20 }

/-- The record produced for Beta at the boundary confidence 0.4. -/
def exRecNoBet : Recommendation :=
  { horseId := "h2", horseName := "Beta", confidence := 0.4
    recommendedBet := Bet.NoBet, expectedOdds := 13/2 }

/-- The advice list `generate_betting_advice` produces on `exRace` under
`exDraws`. -/
def exRecs : List Recommendation := [exRecPlace, exRecNoBet]

/-- The spec's historical example: two past races, horse h1 finishing
first then third. -/
def histRaces : List Race :=
  [ { surface := none, horses := none, results := some [{ id := some "h1", position := some 1 }] }
  , { surface := none, horses := none, results := some [{ id := some "h1", position := some 3 }] } ]

/-- A corpus whose single result entry lacks the `id` key. -/
def noIdRaces : List Race :=
  [ { surface := none, horses := none, results := some [{ id := none, position := some 1 }] } ]

/-- A corpus whose single result entry has an `id` but no `position`. -/
def noPosRaces : List Race :=
  [ { surface := none, horses := none, results := some [{ id := some "h1", position := none }] } ]

/-- The record built from the three mandatory horse fields and a drawn
confidence — the shape of every successful loop iteration. -/
def mkRec (hid hname : String) (hodds c : ℚ) : Recommendation :=
  { horseId := hid, horseName := hname, confidence := c
    recommendedBet := classify c, expectedOdds := expected_odds hodds c }

/-! ## Basic reduction lemmas -/

@[simp] lemma ok_bind {ε α β : Type} (a : α) (f : α → Except ε β) :
    (Except.ok a >>= f : Except ε β) = f a := rfl

@[simp] lemma error_bind {ε α β : Type} (e : ε) (f : α → Except ε β) :
    (Except.error e >>= f : Except ε β) = Except.error e := rfl

@[simp] lemma getField_some {α : Type} (a : α) (k : String) :
    getField (some a) k = Except.ok a := rfl

@[simp] lemma getField_none {α : Type} (k : String) :
    getField (none : Option α) k = Except.error (PyError.keyError k) := rfl

/-! ## Threshold lemmas for `classify` -/

lemma classify_win_iff (c : ℚ) : classify c = Bet.Win ↔ 0.7 < c := by
  unfold classify
  split_ifs with h1 h2
  · exact iff_of_true rfl h1
  · exact iff_of_false (by decide) h1
  · exact iff_of_false (by decide) h1

lemma classify_place_iff (c : ℚ) :
    classify c = Bet.Place ↔ 0.4 < c ∧ c ≤ 0.7 := by
  unfold classify
  split_ifs with h1 h2
  · exact iff_of_false (by decide) (by rintro ⟨_, hle⟩; linarith)
  · exact iff_of_true rfl ⟨h2, le_of_not_lt h1⟩
  · exact iff_of_false (by decide) (by rintro ⟨h4, _⟩; exact h2 h4)

lemma classify_nobet_iff (c : ℚ) : classify c = Bet.NoBet ↔ c ≤ 0.4 := by
  unfold classify
  split_ifs with h1 h2
  · exact iff_of_false (by decide) (by intro hle; linarith)
  · exact iff_of_false (by decide) (by intro hle; linarith)
  · exact iff_of_true rfl (le_of_not_lt h2)

/-! ## Lemmas on the advice loop -/

lemma adviseHorse_ok_elim {horse : Horse} {c : ℚ} {r : Recommendation}
    (h : adviseHorse horse c = Except.ok r) :
    ∃ hid hname hodds, horse.id = some hid ∧ horse.name = some hname ∧
      horse.odds = some hodds ∧ r = mkRec hid hname hodds c := by
  rcases horse with ⟨i, n, o, w⟩
  cases i <;> cases n <;> cases o <;> simp_all [adviseHorse, mkRec]

lemma adviseHorse_error_iff (horse : Horse) (c : ℚ) :
    (∃ e, adviseHorse horse c = Except.error e) ↔
      horse.id = none ∨ horse.name = none ∨ horse.odds = none := by
  rcases horse with ⟨i, n, o, w⟩
  cases i <;> cases n <;> cases o <;> simp [adviseHorse]

lemma adviceLoop_ok_spec {horses : List Horse} {draws : ℕ → ℚ} {i : ℕ}
    {recs : List Recommendation}
    (h : adviceLoop horses draws i = Except.ok recs) :
    recs.length = horses.length ∧
    ∀ j (hj : j < horses.length) (hj2 : j < recs.length),
      ∃ hid hname hodds,
        (horses.get ⟨j, hj⟩).id = some hid ∧
        (horses.get ⟨j, hj⟩).name = some hname ∧
        (horses.get ⟨j, hj⟩).odds = some hodds ∧
        recs.get ⟨j, hj2⟩ = mkRec hid hname hodds (draws (i + j)) := by
  induction horses generalizing i recs with
  | nil =>
    simp only [adviceLoop] at h
    cases h
    exact ⟨rfl, fun j hj => absurd hj (Nat.not_lt_zero j)⟩
  | cons a t ih =>
    simp only [adviceLoop] at h
    cases hA : adviseHorse a (draws i) with
    | error e => rw [hA] at h; exact absurd h (by simp)
    | ok r0 =>
      rw [hA] at h
      cases hR : adviceLoop t draws (i + 1) with
      | error e => rw [hR] at h; exact absurd h (by simp)
      | ok rest =>
        rw [hR] at h
        simp only [ok_bind, Except.ok.injEq] at h
        subst h
        obtain ⟨hlen, hspec⟩ := ih hR
        refine ⟨by simpa using hlen, fun j hj hj2 => ?_⟩
        cases j with
        | zero =>
          obtain ⟨hid, hname, hodds, h1, h2, h3, h4⟩ := adviseHorse_ok_elim hA
          exact ⟨hid, hname, hodds, h1, h2, h3, by simpa using h4⟩
        | succ j =>
          obtain ⟨hid, hname, hodds, h1, h2, h3, h4⟩ :=
            hspec j (Nat.lt_of_succ_lt_succ hj) (Nat.lt_of_succ_lt_succ hj2)
          refine ⟨hid, hname, hodds, h1, h2, h3, ?_⟩
          have harg : i + 1 + j = i + (j + 1) := by omega
          simpa [harg] using h4

lemma adviceLoop_mem {horses : List Horse} {draws : ℕ → ℚ} {i : ℕ}
    {recs : List Recommendation}
    (h : adviceLoop horses draws i = Except.ok recs) :
    ∀ r ∈ recs, r.recommendedBet = classify r.confidence := by
  induction horses generalizing i recs with
  | nil =>
    simp only [adviceLoop] at h
    cases h
    intro r hr
    exact absurd hr (List.not_mem_nil r)
  | cons a t ih =>
    simp only [adviceLoop] at h
    cases hA : adviseHorse a (draws i) with
    | error e => rw [hA] at h; exact absurd h (by simp)
    | ok r0 =>
      rw [hA] at h
      cases hR : adviceLoop t draws (i + 1) with
      | error e => rw [hR] at h; exact absurd h (by simp)
      | ok rest =>
        rw [hR] at h
        simp only [ok_bind, Except.ok.injEq] at h
        subst h
        intro r hr
        rcases List.mem_cons.mp hr with rfl | hr2
        · obtain ⟨hid, hname, hodds, _, _, _, h4⟩ := adviseHorse_ok_elim hA
          rw [h4]
          rfl
        · exact ih hR r hr2

lemma adviceLoop_error_iff (horses : List Horse) (draws : ℕ → ℚ) (i : ℕ) :
    (∃ e, adviceLoop horses draws i = Except.error e) ↔
      ∃ h ∈ horses, h.id = none ∨ h.name = none ∨ h.odds = none := by
  induction horses generalizing i with
  | nil => simp [adviceLoop]
  | cons a t ih =>
    simp only [adviceLoop]
    cases hA : adviseHorse a (draws i) with
    | error e =>
      simp only [error_bind]
      constructor
      · intro _
        exact ⟨a, List.mem_cons_self a t,
          (adviseHorse_error_iff a (draws i)).mp ⟨e, hA⟩⟩
      · intro _
        exact ⟨e, rfl⟩
    | ok r0 =>
      simp only [ok_bind]
      cases hR : adviceLoop t draws (i + 1) with
      | error e2 =>
        simp only [error_bind]
        constructor
        · intro _
          obtain ⟨h, hm, hp⟩ := (ih (i + 1)).mp ⟨e2, hR⟩
          exact ⟨h, List.mem_cons_of_mem a hm, hp⟩
        · intro _
          exact ⟨e2, rfl⟩
      | ok rest =>
        simp only [ok_bind]
        constructor
        · rintro ⟨e, he⟩
          exact Except.noConfusion he
        · rintro ⟨h, hm, hp⟩
          rcases List.mem_cons.mp hm with rfl | hm2
          · obtain ⟨e, he⟩ := (adviseHorse_error_iff h (draws i)).mpr hp
            rw [hA] at he
            exact Except.noConfusion he
          · obtain ⟨e, he⟩ := (ih (i + 1)).mpr ⟨h, hm2, hp⟩
            rw [hR] at he
            exact Except.noConfusion he

/-! ## Lemmas on `process_race_data` -/

lemma listFields_ok {α : Type} (key : String) (f : Horse → Option α) :
    ∀ (hs : List Horse) (vs : List α), hs.map f = vs.map some →
      listFields key f hs = Except.ok vs := by
  intro hs
  induction hs with
  | nil =>
    intro vs h
    cases vs with
    | nil => rfl
    | cons v vt => simp at h
  | cons a t ih =>
    intro vs h
    cases vs with
    | nil => simp at h
    | cons v vt =>
      simp only [List.map_cons, List.cons.injEq] at h
      obtain ⟨h1, h2⟩ := h
      simp only [listFields, h1, getField_some, ok_bind, ih vt h2]

/-! ## Lemmas on the historical aggregation -/

lemma anyResultMatches_ok {horse_id : String} {es : List ResultEntry}
    (hid : ∀ e ∈ es, e.id.isSome) :
    anyResultMatches horse_id es =
      Except.ok (es.any (fun e => e.id = some horse_id)) := by
  induction es with
  | nil => rfl
  | cons e rest ih =>
    obtain ⟨s, hs⟩ := Option.isSome_iff_exists.mp (hid e (List.mem_cons_self e rest))
    simp only [anyResultMatches, hs, getField_some, ok_bind, List.any_cons]
    by_cases hmatch : s = horse_id
    · subst hmatch
      rw [if_pos rfl]
      simp [hs]
    · rw [if_neg hmatch, ih (fun e2 he2 => hid e2 (List.mem_cons_of_mem _ he2))]
      simp [hs, hmatch]

lemma filterHorseRaces_ok {horse_id : String} {races : List Race}
    (hid : ∀ r ∈ races, ∀ e ∈ r.results.getD [], e.id.isSome) :
    filterHorseRaces horse_id races =
      Except.ok (specMatchingRaces horse_id races) := by
  induction races with
  | nil => rfl
  | cons r rest ih =>
    simp only [filterHorseRaces]
    rw [anyResultMatches_ok (hid r (List.mem_cons_self r rest)), ok_bind,
      ih (fun r2 h2 => hid r2 (List.mem_cons_of_mem _ h2)), ok_bind]
    simp only [specMatchingRaces, List.filter_cons]
    cases hm : (r.results.getD []).any (fun e => e.id = some horse_id) with
    | true => simp [hm]
    | false => simp [hm]

lemma racePositions_ok {horse_id : String} {es : List ResultEntry}
    (hid : ∀ e ∈ es, e.id.isSome) :
    racePositions horse_id es = Except.ok
      ((es.filter (fun e => e.id = some horse_id)).map
        (fun e => e.position.getD 0)) := by
  induction es with
  | nil => rfl
  | cons e rest ih =>
    obtain ⟨s, hs⟩ := Option.isSome_iff_exists.mp (hid e (List.mem_cons_self e rest))
    simp only [racePositions, hs, getField_some, ok_bind,
      ih (fun e2 he2 => hid e2 (List.mem_cons_of_mem _ he2)), List.filter_cons]
    by_cases hmatch : s = horse_id
    · subst hmatch
      rw [if_pos rfl]
      simp [hs]
    · rw [if_neg hmatch]
      simp [hs, hmatch]

lemma collectPositions_ok {horse_id : String} {races : List Race}
    (hid : ∀ r ∈ races, ∀ e ∈ r.results.getD [], e.id.isSome) :
    collectPositions horse_id races = Except.ok
      ((races.map (fun r =>
        ((r.results.getD []).filter (fun e => e.id = some horse_id)).map
          (fun e => e.position.getD 0))).flatten) := by
  induction races with
  | nil => rfl
  | cons r rest ih =>
    simp only [collectPositions]
    rw [racePositions_ok (hid r (List.mem_cons_self r rest)), ok_bind,
      ih (fun r2 h2 => hid r2 (List.mem_cons_of_mem _ h2)), ok_bind]
    simp

lemma specMatchingRaces_sub {horse_id : String} {races : List Race}
    (hid : ∀ r ∈ races, ∀ e ∈ r.results.getD [], e.id.isSome) :
    ∀ r ∈ specMatchingRaces horse_id races, ∀ e ∈ r.results.getD [], e.id.isSome :=
  fun r hr => hid r (List.mem_filter.mp hr).1

lemma analyze_eq (horse_id : String) (races : List Race)
    (hid : ∀ r ∈ races, ∀ e ∈ r.results.getD [], e.id.isSome) :
    analyze_historical_performance horse_id races = Except.ok
      (if (specMatchingRaces horse_id races).isEmpty then
        AnalyzeResult.noData horse_id "No historical data"
      else
        AnalyzeResult.profile horse_id (specMatchingRaces horse_id races).length
          (if (specPositions horse_id races).isEmpty then 0
           else intMean (specPositions horse_id races))
          (if (specPositions horse_id races).isEmpty then 0
           else (((specPositions horse_id races).filter (fun p => p = 1)).length : ℚ) /
             ((specPositions horse_id races).length : ℚ))
          (if (specPositions horse_id races).length ≥ 5 then
            (specPositions horse_id races).drop
              ((specPositions horse_id races).length - 5)
           else specPositions horse_id races)) := by
  unfold analyze_historical_performance
  rw [filterHorseRaces_ok hid, ok_bind]
  cases hm : (specMatchingRaces horse_id races).isEmpty with
  | true => simp [hm]
  | false =>
    simp only [hm, Bool.false_eq_true, if_false]
    rw [collectPositions_ok (specMatchingRaces_sub hid), ok_bind]
    rfl

lemma specPositions_ne_nil {horse_id : String} {races : List Race}
    (hmatch : specMatchingRaces horse_id races ≠ []) :
    specPositions horse_id races ≠ [] := by
  rcases hq : specMatchingRaces horse_id races with _ | ⟨r, rest⟩
  · exact absurd hq hmatch
  · have hr : r ∈ specMatchingRaces horse_id races := by
      rw [hq]
      exact List.mem_cons_self r rest
    have hany : (r.results.getD []).any (fun e => e.id = some horse_id) :=
      (List.mem_filter.mp hr).2
    obtain ⟨e, he, hpred⟩ := List.any_eq_true.mp hany
    have hef : e ∈ (r.results.getD []).filter (fun e2 => e2.id = some horse_id) :=
      List.mem_filter.mpr ⟨he, hpred⟩
    unfold specPositions
    rw [hq]
    simp only [List.map_cons, List.flatten_cons]
    intro hcontra
    rcases List.append_eq_nil.mp hcontra with ⟨hnil, _⟩
    rw [List.map_eq_nil_iff] at hnil
    rw [hnil] at hef
    exact List.not_mem_nil e hef

/-! ## The claims -/

/-- C1: for every race whose horse list is non-empty and whose every horse
carries `odds` and `weight`, `process_race_data` returns an analysis whose
`average_odds` is the arithmetic mean of the odds, `average_weight` the
arithmetic mean of the weights, `total_horses` the number of horses, and
whose surface value is the race's `surface` field, defaulting to
`"Unknown"` when absent. -/
theorem summarize_means (race : Race) (os ws : List ℚ)
    (hne : race.horses.getD [] ≠ [])
    (ho : (race.horses.getD []).map Horse.odds = os.map some)
    (hw : (race.horses.getD []).map Horse.weight = ws.map some) :
    process_race_data race = Except.ok
      { analysis := some
          { total_horses := (race.horses.getD []).length
            average_odds := os.sum / (os.length : ℚ)
            average_weight := ws.sum / (ws.length : ℚ)
            race_surface := race.surface.getD "Unknown" }
        processed_data := race } := by
  simp only [process_race_data]
  rw [listFields_ok "odds" Horse.odds _ os ho,
    listFields_ok "weight" Horse.weight _ ws hw]
  rw [if_neg]
  · rfl
  · simpa [List.isEmpty_iff] using hne

/-- Witness for C1, at the spec's worked example race. -/
theorem summarize_means_witness :
    process_race_data exRace = Except.ok
      { analysis := some
          { total_horses := (exRace.horses.getD []).length
            average_odds := ([3, 5] : List ℚ).sum / (([3, 5] : List ℚ).length : ℚ)
            average_weight :=
              ([120, 115] : List ℚ).sum / (([120, 115] : List ℚ).length : ℚ)
            race_surface := exRace.surface.getD "Unknown" }
        processed_data := exRace } :=
  summarize_means exRace [3, 5] [120, 115] (by decide) rfl rfl

/-- C6: for every race whose horse list is empty, `process_race_data`
raises nothing and returns the empty analysis together with the unchanged
input race. -/
theorem summarize_empty (race : Race) (h : race.horses.getD [] = []) :
    process_race_data race =
      Except.ok { analysis := none, processed_data := race } := by
  simp [process_race_data, h]

/-- Witness for C6, at a race with an explicitly empty horse list. -/
theorem summarize_empty_witness :
    process_race_data emptyRace =
      Except.ok { analysis := none, processed_data := emptyRace } :=
  summarize_empty emptyRace rfl

/-- C2: every recommendation produced by `generate_betting_advice` is Win
exactly when its confidence exceeds 0.7, Place exactly when the confidence
lies in (0.4, 0.7], and No Bet exactly when the confidence is at most 0.4;
in particular the boundary values 0.7 and 0.4 give Place and No Bet. -/
theorem recommended_bet_thresholds (race : Race) (hist : Option (List Race))
    (draws : ℕ → ℚ) (recs : List Recommendation)
    (h : generate_betting_advice race hist draws = Except.ok recs)
    (r : Recommendation) (hr : r ∈ recs) :
    (r.recommendedBet = Bet.Win ↔ 0.7 < r.confidence) ∧
    (r.recommendedBet = Bet.Place ↔ 0.4 < r.confidence ∧ r.confidence ≤ 0.7) ∧
    (r.recommendedBet = Bet.NoBet ↔ r.confidence ≤ 0.4) := by
  have h2 : adviceLoop (race.horses.getD []) draws 0 = Except.ok recs := h
  rw [adviceLoop_mem h2 r hr]
  exact ⟨classify_win_iff _, classify_place_iff _, classify_nobet_iff _⟩

/-- Witness for C2, at the boundary confidence 0.7 (which gives Place). -/
theorem recommended_bet_thresholds_witness :
    (exRecPlace.recommendedBet = Bet.Win ↔ 0.7 < exRecPlace.confidence) ∧
    (exRecPlace.recommendedBet = Bet.Place ↔
      0.4 < exRecPlace.confidence ∧ exRecPlace.confidence ≤ 0.7) ∧
    (exRecPlace.recommendedBet = Bet.NoBet ↔ exRecPlace.confidence ≤ 0.4) :=
  recommended_bet_thresholds exRace none exDraws exRecs
    (by norm_num [generate_betting_advice, exRace, adviceLoop, adviseHorse,
      getField, exDraws, classify, expected_odds, exRecs, exRecPlace, exRecNoBet])
    exRecPlace (List.mem_cons_self exRecPlace [exRecNoBet])

/-- C3: for every horse with `odds` present, the recommendation produced
for it carries `expectedOdds = odds * (1 + (1 - confidence) * 0.5)` at the
drawn confidence; confidence 1 leaves the odds unchanged and confidence 0
scales them by 1.5. -/
theorem expected_odds_formula (race : Race) (hist : Option (List Race))
    (draws : ℕ → ℚ) (recs : List Recommendation)
    (h : generate_betting_advice race hist draws = Except.ok recs)
    (j : ℕ) (hj : j < (race.horses.getD []).length) (hj2 : j < recs.length)
    (o : ℚ) (ho : ((race.horses.getD []).get ⟨j, hj⟩).odds = some o) :
    (recs.get ⟨j, hj2⟩).expectedOdds = o * (1 + (1 - draws j) * 0.5) ∧
    expected_odds o 1 = o ∧ expected_odds o 0 = 1.5 * o := by
  have h2 : adviceLoop (race.horses.getD []) draws 0 = Except.ok recs := h
  obtain ⟨hlen, hspec⟩ := adviceLoop_ok_spec h2
  obtain ⟨hid, hname, hodds, h1, hn, h3, h4⟩ := hspec j hj hj2
  rw [ho] at h3
  obtain rfl : o = hodds := Option.some.inj h3
  refine ⟨?_, by unfold expected_odds; ring, by unfold expected_odds; ring⟩
  rw [h4]
  show expected_odds o (draws (0 + j)) = o * (1 + (1 - draws j) * 0.5)
  rw [Nat.zero_add]
  rfl

/-- Witness for C3, at the example race's first horse (odds 3,
confidence 0.7). -/
theorem expected_odds_formula_witness :
    (exRecs.get ⟨0, by decide⟩).expectedOdds =
      3 * (1 + (1 - exDraws 0) * 0.5) ∧
    expected_odds 3 1 = 3 ∧ expected_odds 3 0 = 1.5 * 3 :=
  expected_odds_formula exRace none exDraws exRecs
    (by norm_num [generate_betting_advice, exRace, adviceLoop, adviseHorse,
      getField, exDraws, classify, expected_odds, exRecs, exRecPlace, exRecNoBet])
    0 (by decide) (by decide) 3 rfl

/-- C4: whenever some race's results mention the horse (and every result
entry carries its `id` key, as the data model requires),
`analyze_historical_performance` returns the profile whose `total_races`
counts the matching races, whose `average_position` is the arithmetic mean
of the collected positions (a missing position counting as 0), whose
`win_rate` is the share of collected positions equal to 1, and whose
`recent_form` is the last up-to-5 collected positions in corpus order. -/
theorem analyze_profile (horse_id : String) (races : List Race)
    (hid : ∀ r ∈ races, ∀ e ∈ r.results.getD [], e.id.isSome)
    (hmatch : specMatchingRaces horse_id races ≠ []) :
    analyze_historical_performance horse_id races = Except.ok
      (AnalyzeResult.profile horse_id (specMatchingRaces horse_id races).length
        (intMean (specPositions horse_id races))
        ((((specPositions horse_id races).filter (fun p => p = 1)).length : ℚ) /
          ((specPositions horse_id races).length : ℚ))
        ((specPositions horse_id races).drop
          ((specPositions horse_id races).length - 5))) := by
  rw [analyze_eq horse_id races hid]
  have hisem : (specMatchingRaces horse_id races).isEmpty = false := by
    simpa [List.isEmpty_iff] using hmatch
  have hpisem : (specPositions horse_id races).isEmpty = false := by
    simpa [List.isEmpty_iff] using specPositions_ne_nil hmatch
  rw [hisem, hpisem]
  simp only [if_neg Bool.false_ne_true]
  by_cases hlen : (specPositions horse_id races).length ≥ 5
  · rw [if_pos hlen]
  · rw [if_neg hlen]
    have hz : (specPositions horse_id races).length - 5 = 0 := by omega
    rw [hz, List.drop_zero]

/-- Witness for C4, at the spec's two-race example history of h1. -/
theorem analyze_profile_witness :
    analyze_historical_performance "h1" histRaces = Except.ok
      (AnalyzeResult.profile "h1" (specMatchingRaces "h1" histRaces).length
        (intMean (specPositions "h1" histRaces))
        ((((specPositions "h1" histRaces).filter (fun p => p = 1)).length : ℚ) /
          ((specPositions "h1" histRaces).length : ℚ))
        ((specPositions "h1" histRaces).drop
          ((specPositions "h1" histRaces).length - 5))) :=
  analyze_profile "h1" histRaces (by decide) (by decide)

/-- C5: when no result entry of any race carries the horse's id (each
entry carrying an `id` key, as the data model requires),
`analyze_historical_performance` returns exactly the degenerate
no-historical-data record, not a profile with zero races. -/
theorem analyze_no_data (horse_id : String) (races : List Race)
    (hid : ∀ r ∈ races, ∀ e ∈ r.results.getD [], e.id.isSome)
    (hnone : ∀ r ∈ races, ∀ e ∈ r.results.getD [], ¬ e.id = some horse_id) :
    analyze_historical_performance horse_id races =
      Except.ok (AnalyzeResult.noData horse_id "No historical data") := by
  have hm : specMatchingRaces horse_id races = [] := by
    unfold specMatchingRaces
    rw [List.filter_eq_nil_iff]
    intro r hr
    simp only [List.any_eq_true, decide_eq_true_eq, not_exists]
    intro e
    rintro ⟨he, hp⟩
    exact hnone r hr e he hp
  rw [analyze_eq horse_id races hid, hm]
  rfl

/-- Witness for C5: h9 appears in no race of the example history. -/
theorem analyze_no_data_witness :
    analyze_historical_performance "h9" histRaces =
      Except.ok (AnalyzeResult.noData "h9" "No historical data") :=
  analyze_no_data "h9" histRaces (by decide) (by decide)

/-- C7 counterexample: the claim says `analyze_historical_performance`
raises no failure even on entries missing fields, but a result entry
lacking its `id` key makes the code raise a `KeyError` at the point of
use. -/
theorem analyze_missing_id_keyerror :
    analyze_historical_performance "h1" noIdRaces =
      Except.error (PyError.keyError "id") := rfl

/-- C7 (amended): for every horse_id and races list whose result entries
all carry an `id` key, `analyze_historical_performance` raises no failure,
and a missing `position` field defaults to 0 in the collected positions;
an entry missing its `id` key instead raises a `KeyError` at the point of
use. -/
theorem analyze_no_failure_with_ids (horse_id : String) (races : List Race)
    (hid : ∀ r ∈ races, ∀ e ∈ r.results.getD [], e.id.isSome) :
    analyze_historical_performance horse_id races = Except.ok
      (if (specMatchingRaces horse_id races).isEmpty then
        AnalyzeResult.noData horse_id "No historical data"
      else
        AnalyzeResult.profile horse_id (specMatchingRaces horse_id races).length
          (if (specPositions horse_id races).isEmpty then 0
           else intMean (specPositions horse_id races))
          (if (specPositions horse_id races).isEmpty then 0
           else (((specPositions horse_id races).filter (fun p => p = 1)).length : ℚ) /
             ((specPositions horse_id races).length : ℚ))
          (if (specPositions horse_id races).length ≥ 5 then
            (specPositions horse_id races).drop
              ((specPositions horse_id races).length - 5)
           else specPositions horse_id races)) :=
  analyze_eq horse_id races hid

/-- Witness for the amended C7: a race whose single entry has an id but no
position yields the profile with position 0, not an error. -/
theorem analyze_no_failure_with_ids_witness :
    analyze_historical_performance "h1" noPosRaces =
      Except.ok (AnalyzeResult.profile "h1" 1 0 0 [0]) := by
  have h := analyze_no_failure_with_ids "h1" noPosRaces (by decide)
  rw [h]
  refine congrArg Except.ok ?_
  norm_num [specMatchingRaces, specPositions, noPosRaces, intMean]

/-- C8: `generate_betting_advice` fails (with a `KeyError`, the spec's
`MalformedEntry`) exactly when some horse lacks `id`, `name` or `odds` —
a horse missing only `weight` never causes a failure — and on success it
returns one recommendation per horse, in the same order, carrying that
horse's id and name. -/
theorem advise_malformed_iff (race : Race) (hist : Option (List Race))
    (draws : ℕ → ℚ) :
    ((∃ e, generate_betting_advice race hist draws = Except.error e) ↔
      ∃ h ∈ race.horses.getD [],
        h.id = none ∨ h.name = none ∨ h.odds = none) ∧
    ∀ recs, generate_betting_advice race hist draws = Except.ok recs →
      recs.length = (race.horses.getD []).length ∧
      ∀ j (hj : j < (race.horses.getD []).length) (hj2 : j < recs.length),
        ((race.horses.getD []).get ⟨j, hj⟩).id =
          some ((recs.get ⟨j, hj2⟩).horseId) ∧
        ((race.horses.getD []).get ⟨j, hj⟩).name =
          some ((recs.get ⟨j, hj2⟩).horseName) := by
  constructor
  · exact adviceLoop_error_iff (race.horses.getD []) draws 0
  · intro recs h
    have h2 : adviceLoop (race.horses.getD []) draws 0 = Except.ok recs := h
    obtain ⟨hlen, hspec⟩ := adviceLoop_ok_spec h2
    refine ⟨hlen, fun j hj hj2 => ?_⟩
    obtain ⟨hid, hname, hodds, h1, hn, h3, h4⟩ := hspec j hj hj2
    rw [h4]
    exact ⟨by rw [h1]; rfl, by rw [hn]; rfl⟩

/-- Witness for C8: the advice succeeds on the example race (two
recommendations, first id matching), and a horse missing only `odds`
makes it fail. -/
theorem advise_malformed_iff_witness :
    exRecs.length = (exRace.horses.getD []).length ∧
    ((exRace.horses.getD []).get ⟨0, by decide⟩).id =
      some ((exRecs.get ⟨0, by decide⟩).horseId) := by
  have h := (advise_malformed_iff exRace none exDraws).2 exRecs
    (by norm_num [generate_betting_advice, exRace, adviceLoop, adviseHorse,
      getField, exDraws, classify, expected_odds, exRecs, exRecPlace, exRecNoBet])
  exact ⟨h.1, (h.2 0 (by decide) (by decide)).1⟩

/-- C9: for a fixed positive base odds, the expected-odds adjustment is
monotonically non-increasing in the confidence. -/
theorem expected_odds_antitone (odds c1 c2 : ℚ) (hodds : 0 < odds)
    (h : c1 < c2) :
    expected_odds odds c2 ≤ expected_odds odds c1 := by
  unfold expected_odds
  nlinarith

/-- Witness for C9, at odds 3 and confidences 0.1 < 0.9. -/
theorem expected_odds_antitone_witness :
    expected_odds 3 0.9 ≤ expected_odds 3 0.1 :=
  expected_odds_antitone 3 0.1 0.9 (by norm_num) (by norm_num)

/-- C10: `generate_betting_advice` never reads its historical argument:
with the same race and the same confidence draws, any two values of the
historical parameter produce identical recommendation lists. -/
theorem advice_ignores_historical (race : Race) (h1 h2 : Option (List Race))
    (draws : ℕ → ℚ) :
    generate_betting_advice race h1 draws =
      generate_betting_advice race h2 draws := rfl

end BettingApp
